import Mathlib

/-
Verification of the core inference engine of the octopus variant caller
against its specification.

The development shallowly embeds the relevant C++ functions over lists and
real numbers: floating-point doubles are idealised as real numbers, machine
integers as naturals, genotypes as lists of haplotype identifiers, and
fallible code as Except values.  Components of the repository whose sources
are not available here (the maths utilities, the top-k selection helpers,
the AlignedRead header) are modelled from the specification and marked as
such in their doc comments; nondeterministic library calls (std::nth_element )
are represented by universally quantified oracle arguments.
-/

set_option maxHeartbeats 1000000

namespace OctopusProof

/- ====================================================================
   C9: AlignedRead flag compression (src/basics/aligned_read.cpp)
   ==================================================================== -/

/-- Modelled from the spec: the AlignedRead::Flags record lives in
basics/aligned_read.hpp which is not among the sources; its ten boolean
fields are listed here in the order fixed by AlignedRead::compress and by
the flags accessors (aligned_read.cpp lines 120-178), which map bit i of
the compressed bitset to the i-th flag below. -/
structure Flags where
  all_segments_in_read_aligned : Bool
  multiple_segment_template : Bool
  unmapped : Bool
  reverse_mapped : Bool
  secondary_alignment : Bool
  qc_fail : Bool
  duplicate : Bool
  supplementary_alignment : Bool
  first_template_segment : Bool
  last_template_segment : Bool

/-- AlignedRead::compress (aligned_read.cpp lines 182-196): pack the ten
flags into the bitset, bit i receiving the i-th field. -/
def AlignedRead.compress (f : Flags) : List Bool :=
  [ f.all_segments_in_read_aligned
  , f.multiple_segment_template
  , f.unmapped
  , f.reverse_mapped
  , f.secondary_alignment
  , f.qc_fail
  , f.duplicate
  , f.supplementary_alignment
  , f.first_template_segment
  , f.last_template_segment ]

/-- AlignedRead::decompress (aligned_read.cpp lines 198-201): rebuild the
Flags record from bits 0..9 in field order. -/
def AlignedRead.decompress (bits : List Bool) : Flags :=
  { all_segments_in_read_aligned := bits.getD 0 false
  , multiple_segment_template := bits.getD 1 false
  , unmapped := bits.getD 2 false
  , reverse_mapped := bits.getD 3 false
  , secondary_alignment := bits.getD 4 false
  , qc_fail := bits.getD 5 false
  , duplicate := bits.getD 6 false
  , supplementary_alignment := bits.getD 7 false
  , first_template_segment := bits.getD 8 false
  , last_template_segment := bits.getD 9 false }

/-- C9: for every AlignedRead::Flags value f, decompress (compress f) = f:
the ten boolean read flags survive the round trip through the compressed
bitset representation unchanged and in the same field order. -/
theorem aligned_read_flags_roundtrip (f : Flags) :
    AlignedRead.decompress (AlignedRead.compress f) = f := by
  cases f
  rfl

/- ====================================================================
   C5: SubcloneModel ploidy dispatch (core/models/genotype/subclone_model.hpp)
   ==================================================================== -/

/-- Errors thrown by the subclone variational-Bayes engine
(exceptions/unimplemented_feature_error.hpp). -/
inductive SubcloneModelError where
  | unimplementedFeature (feature source : String)

/-- The ploidy dispatch of detail::run_variational_bayes_helper
(subclone_model.hpp lines 311-345): ploidies 1..10 run the templated helper
instantiated at that ploidy; every other ploidy falls to the default case,
which throws UnimplementedFeatureError. -/
def run_variational_bayes_helper {A : Type} (ploidy : Nat) (helper : Nat → A) :
    Except SubcloneModelError A :=
  match ploidy with
  | 1 => Except.ok (helper 1)
  | 2 => Except.ok (helper 2)
  | 3 => Except.ok (helper 3)
  | 4 => Except.ok (helper 4)
  | 5 => Except.ok (helper 5)
  | 6 => Except.ok (helper 6)
  | 7 => Except.ok (helper 7)
  | 8 => Except.ok (helper 8)
  | 9 => Except.ok (helper 9)
  | 10 => Except.ok (helper 10)
  | _ => Except.error (SubcloneModelError.unimplementedFeature "ploidies above 10" "SubcloneModel")

/-- SubcloneModelBase::evaluate (subclone_model.hpp lines 364-371):
dispatches on the ploidy of the first candidate genotype (a genotype is an
ordered multiset of haplotypes; ploidy is its size).  The downstream
variational-Bayes run is abstracted by the helper argument. -/
def SubcloneModelBase.evaluate {H A : Type} (genotypes : List (List H)) (helper : Nat → A) :
    Except SubcloneModelError A :=
  run_variational_bayes_helper (genotypes.headI.length) helper

/-- C5 counterexample: with ploidy-0 candidate genotypes the model also
fails with UnimplementedFeature, although 0 is not greater than 10, so
failure is not equivalent to ploidy exceeding 10. -/
theorem subclone_ploidy_iff_counterexample :
    (∃ e, SubcloneModelBase.evaluate [([] : List Nat)] (fun k => k) = Except.error e) ∧
    ¬ 10 < ([([] : List Nat)].headI.length) := by
  exact ⟨⟨SubcloneModelError.unimplementedFeature "ploidies above 10" "SubcloneModel", rfl⟩,
         by decide⟩

/-- C5 (amended): SubcloneModelBase::evaluate fails with UnimplementedFeature
exactly when the ploidy of the candidate genotypes lies outside 1..=10
(so also at ploidy 0); for every ploidy in 1..=10 it completes without that
error, returning the inferred latents of the helper at that ploidy. -/
theorem subclone_ploidy_dispatch {H A : Type} (genotypes : List (List H)) (helper : Nat → A) :
    SubcloneModelBase.evaluate genotypes helper =
      if 1 ≤ genotypes.headI.length ∧ genotypes.headI.length ≤ 10
      then Except.ok (helper genotypes.headI.length)
      else Except.error
        (SubcloneModelError.unimplementedFeature "ploidies above 10" "SubcloneModel") := by
  unfold SubcloneModelBase.evaluate run_variational_bayes_helper
  rcases hn : genotypes.headI.length with _ | n
  · simp
  · rcases n with _ | n <;> try (simp; done)
    rcases n with _ | n <;> try (simp; done)
    rcases n with _ | n <;> try (simp; done)
    rcases n with _ | n <;> try (simp; done)
    rcases n with _ | n <;> try (simp; done)
    rcases n with _ | n <;> try (simp; done)
    rcases n with _ | n <;> try (simp; done)
    rcases n with _ | n <;> try (simp; done)
    rcases n with _ | n <;> try (simp; done)
    rcases n with _ | n
    · simp
    · have : ¬ (1 ≤ n + 11 ∧ n + 11 ≤ 10) := by omega
      simp only [this, if_false]

/- ====================================================================
   C10: symmetric KL divergence (core/models/genotype/single_cell_model.cpp)
   ==================================================================== -/

/-- The summand of kl_divergence (single_cell_model.cpp lines 124-130): a
pair contributes a * log(a/b) when both components are positive and 0
otherwise. -/
noncomputable def klTerm (a b : ℝ) : ℝ :=
  if 0 < a ∧ 0 < b then a * Real.log (a / b) else 0

/-- kl_divergence (single_cell_model.cpp lines 124-130): inner product of
the two vectors under klTerm; traversal stops with the vectors (the caller
passes equal-length vectors). -/
noncomputable def kl_divergence : List ℝ → List ℝ → ℝ
  | a :: as, b :: bs => klTerm a b + kl_divergence as bs
  | _, _ => 0

/-- symmetric_kl_divergence (single_cell_model.cpp lines 132-135). -/
noncomputable def symmetric_kl_divergence (p q : List ℝ) : ℝ :=
  kl_divergence p q + kl_divergence q p

theorem kl_divergence_nil_right (p : List ℝ) : kl_divergence p [] = 0 := by
  cases p <;> rfl

theorem klTerm_add_symm_nonneg (a b : ℝ) : 0 ≤ klTerm a b + klTerm b a := by
  unfold klTerm
  by_cases h : 0 < a ∧ 0 < b
  · have h2 : 0 < b ∧ 0 < a := ⟨h.2, h.1⟩
    rw [if_pos h, if_pos h2, Real.log_div (ne_of_gt h.1) (ne_of_gt h.2),
        Real.log_div (ne_of_gt h.2) (ne_of_gt h.1)]
    have key : a * (Real.log a - Real.log b) + b * (Real.log b - Real.log a)
        = (a - b) * (Real.log a - Real.log b) := by ring
    rw [key]
    rcases le_total a b with hab | hab
    · have hl := Real.log_le_log h.1 hab
      nlinarith
    · have hl := Real.log_le_log h.2 hab
      nlinarith
  · have h2 : ¬ (0 < b ∧ 0 < a) := fun hc => h ⟨hc.2, hc.1⟩
    rw [if_neg h, if_neg h2]
    norm_num

theorem kl_divergence_symm_sum_nonneg (p q : List ℝ) :
    0 ≤ kl_divergence p q + kl_divergence q p := by
  induction p generalizing q with
  | nil =>
    rw [kl_divergence_nil_right]
    cases q <;> simp [kl_divergence]
  | cons a as ih =>
    cases q with
    | nil => simp [kl_divergence, kl_divergence_nil_right]
    | cons b bs =>
      have hterm := klTerm_add_symm_nonneg a b
      have htail := ih bs
      simp only [kl_divergence]
      linarith

/-- C10: for probability vectors p and q of equal length, the symmetric KL
divergence used by single-cell k-medoids clustering is symmetric and
non-negative, and any pair with a zero component contributes nothing to
either directed sum. -/
theorem symmetric_kl_divergence_properties (p q : List ℝ)
    (hlen : p.length = q.length)
    (hp : (∀ x ∈ p, 0 ≤ x) ∧ p.sum = 1)
    (hq : (∀ x ∈ q, 0 ≤ x) ∧ q.sum = 1) :
    symmetric_kl_divergence p q = symmetric_kl_divergence q p ∧
    0 ≤ symmetric_kl_divergence p q ∧
    (∀ a b : ℝ, a = 0 ∨ b = 0 → klTerm a b = 0 ∧ klTerm b a = 0) := by
  refine ⟨add_comm _ _, kl_divergence_symm_sum_nonneg p q, ?_⟩
  intro a b hab
  constructor
  · unfold klTerm
    rw [if_neg]
    rcases hab with h | h <;> rintro ⟨h1, h2⟩ <;> subst h <;> linarith
  · unfold klTerm
    rw [if_neg]
    rcases hab with h | h <;> rintro ⟨h1, h2⟩ <;> subst h <;> linarith

/-- C10 witness: the theorem instantiated at the one-point distributions. -/
theorem symmetric_kl_divergence_properties_witness :
    symmetric_kl_divergence [1] [1] = symmetric_kl_divergence [1] [1] ∧
    0 ≤ symmetric_kl_divergence [1] [1] ∧
    (∀ a b : ℝ, a = 0 ∨ b = 0 → klTerm a b = 0 ∧ klTerm b a = 0) :=
  symmetric_kl_divergence_properties [1] [1] rfl
    ⟨by intro x hx; simp at hx; simp [hx], by simp⟩
    ⟨by intro x hx; simp at hx; simp [hx], by simp⟩

/- ====================================================================
   C7: repeat-based indel error model
   (core/models/error/repeat_based_indel_error_model.cpp)
   ==================================================================== -/

/-- An exact tandem repeat as produced by tandem::extract_exact_tandem_repeats:
start position, motif period and total length, all in bases. -/
structure TandemRepeat where
  pos : Nat
  period : Nat
  length : Nat

/-- set_motif (repeat_based_indel_error_model.cpp lines 25-29): the motif is
the period-length slice of the haplotype sequence starting at the repeat
position. -/
def set_motif {β : Type} (seq : List β) (r : TandemRepeat) : List β :=
  (seq.drop r.pos).take r.period

/-- fill_n_if_less (repeat_based_indel_error_model.cpp lines 31-41):
replace each entry of the window of n positions starting at pos with the
minimum of the entry and the given value. -/
def fill_n_if_less : List ℤ → Nat → Nat → ℤ → List ℤ
  | [], _, _, _ => []
  | x :: xs, p, n, v =>
    match n with
    | 0 => x :: xs
    | Nat.succ m =>
      match p with
      | 0 => min x v :: fill_n_if_less xs 0 m v
      | Nat.succ q => x :: fill_n_if_less xs q (Nat.succ m) v

theorem fill_n_if_less_nil (p n : Nat) (v : ℤ) : fill_n_if_less [] p n v = [] := rfl

theorem fill_n_if_less_zero_width (x : ℤ) (xs : List ℤ) (p : Nat) (v : ℤ) :
    fill_n_if_less (x :: xs) p 0 v = x :: xs := rfl

theorem fill_n_if_less_cons_here (x : ℤ) (xs : List ℤ) (m : Nat) (v : ℤ) :
    fill_n_if_less (x :: xs) 0 (m + 1) v = min x v :: fill_n_if_less xs 0 m v := rfl

theorem fill_n_if_less_cons_skip (x : ℤ) (xs : List ℤ) (q m : Nat) (v : ℤ) :
    fill_n_if_less (x :: xs) (q + 1) (m + 1) v = x :: fill_n_if_less xs q (m + 1) v := rfl

theorem fill_n_if_less_length (xs : List ℤ) (p n : Nat) (v : ℤ) :
    (fill_n_if_less xs p n v).length = xs.length := by
  induction xs generalizing p n with
  | nil => rw [fill_n_if_less_nil]
  | cons x xs ih =>
    cases n with
    | zero => rw [fill_n_if_less_zero_width]
    | succ m =>
      cases p with
      | zero => simpa [fill_n_if_less_cons_here] using ih 0 m
      | succ q => simpa [fill_n_if_less_cons_skip] using ih q (m + 1)

theorem fill_n_if_less_getD (xs : List ℤ) (p n : Nat) (v : ℤ) (i : Nat)
    (hi : i < xs.length) :
    (fill_n_if_less xs p n v).getD i 0 =
      if p ≤ i ∧ i < p + n then min (xs.getD i 0) v else xs.getD i 0 := by
  induction xs generalizing p n i with
  | nil => simp at hi
  | cons x xs ih =>
    cases n with
    | zero =>
      rw [fill_n_if_less_zero_width, if_neg (by omega)]
    | succ m =>
      cases p with
      | zero =>
        cases i with
        | zero => rw [fill_n_if_less_cons_here, if_pos (by omega)]; rfl
        | succ j =>
          rw [fill_n_if_less_cons_here]
          simp only [List.getD_cons_succ]
          rw [ih 0 m j (by simpa using hi)]
          by_cases hc : j < m
          · rw [if_pos ⟨Nat.zero_le _, by omega⟩, if_pos ⟨Nat.zero_le _, by omega⟩]
          · rw [if_neg (by omega), if_neg (by omega)]
      | succ q =>
        cases i with
        | zero =>
          rw [fill_n_if_less_cons_skip]
          simp only [List.getD_cons_zero]
          rw [if_neg (by omega)]
        | succ j =>
          rw [fill_n_if_less_cons_skip]
          simp only [List.getD_cons_succ]
          rw [ih q (m + 1) j (by simpa using hi)]
          by_cases hc : q ≤ j ∧ j < q + (m + 1)
          · rw [if_pos hc, if_pos (by omega)]
          · rw [if_neg hc, if_neg (by omega)]

/-- One iteration of the repeat loop of the scalar
RepeatBasedIndelErrorModel::do_set_penalties (lines 52-59): overwrite the
repeat's window of the gap-open vector with the minimum of the current
value and the repeat's open penalty. -/
def apply_open_penalty {β : Type} (get_open_penalty : List β → Nat → ℤ) (seq : List β)
    (v : List ℤ) (r : TandemRepeat) : List ℤ :=
  fill_n_if_less v r.pos r.length (get_open_penalty (set_motif seq r) r.length)

/-- The max_repeat accumulation of the scalar do_set_penalties (lines 50,
56-58): keep the first repeat of strictly greatest length, starting from a
value-initialised repeat of length 0. -/
def max_repeat_fold (repeats : List TandemRepeat) : TandemRepeat :=
  repeats.foldl (fun best r => if best.length < r.length then r else best) ⟨0, 0, 0⟩

/-- The scalar RepeatBasedIndelErrorModel::do_set_penalties
(repeat_based_indel_error_model.cpp lines 45-65): initialise the gap-open
vector to the default penalty over the whole sequence, apply each extracted
repeat's open penalty by windowed minimum, and set the single gap-extend
penalty from the longest extracted repeat (default when no repeat). -/
def do_set_penalties_scalar {β : Type} (default_open default_extension : ℤ)
    (get_open_penalty get_extension_penalty : List β → Nat → ℤ)
    (seq : List β) (repeats : List TandemRepeat) : List ℤ × ℤ :=
  let gap_open := repeats.foldl (apply_open_penalty get_open_penalty seq)
                    (List.replicate seq.length default_open)
  let gap_extend :=
    if repeats.isEmpty then default_extension
    else
      let mr := max_repeat_fold repeats
      get_extension_penalty (set_motif seq mr) mr.length
  (gap_open, gap_extend)

theorem do_set_penalties_scalar_fst {β : Type} (default_open default_extension : ℤ)
    (get_open_penalty get_extension_penalty : List β → Nat → ℤ)
    (seq : List β) (repeats : List TandemRepeat) :
    (do_set_penalties_scalar default_open default_extension
        get_open_penalty get_extension_penalty seq repeats).1 =
      repeats.foldl (apply_open_penalty get_open_penalty seq)
        (List.replicate seq.length default_open) := rfl

theorem do_set_penalties_scalar_snd {β : Type} (default_open default_extension : ℤ)
    (get_open_penalty get_extension_penalty : List β → Nat → ℤ)
    (seq : List β) (repeats : List TandemRepeat) :
    (do_set_penalties_scalar default_open default_extension
        get_open_penalty get_extension_penalty seq repeats).2 =
      if repeats.isEmpty then default_extension
      else get_extension_penalty (set_motif seq (max_repeat_fold repeats))
             (max_repeat_fold repeats).length := rfl

theorem foldl_apply_open_length {β : Type} (get_open_penalty : List β → Nat → ℤ)
    (seq : List β) (repeats : List TandemRepeat) (v : List ℤ) :
    (repeats.foldl (apply_open_penalty get_open_penalty seq) v).length = v.length := by
  induction repeats generalizing v with
  | nil => rfl
  | cons r rs ih =>
    simp only [List.foldl_cons, ih, apply_open_penalty, fill_n_if_less_length]

theorem foldl_apply_open_getD {β : Type} (get_open_penalty : List β → Nat → ℤ)
    (seq : List β) (repeats : List TandemRepeat) (v : List ℤ) (i : Nat)
    (hi : i < v.length) :
    (repeats.foldl (apply_open_penalty get_open_penalty seq) v).getD i 0 =
      ((repeats.filter (fun r => decide (r.pos ≤ i) && decide (i < r.pos + r.length))).map
        (fun r => get_open_penalty (set_motif seq r) r.length)).foldl min (v.getD i 0) := by
  induction repeats generalizing v with
  | nil => rfl
  | cons r rs ih =>
    simp only [List.foldl_cons]
    have hlen2 : i < (apply_open_penalty get_open_penalty seq v r).length := by
      rw [apply_open_penalty, fill_n_if_less_length]
      exact hi
    by_cases hc : r.pos ≤ i ∧ i < r.pos + r.length
    · have hfil : (r :: rs).filter (fun s => decide (s.pos ≤ i) && decide (i < s.pos + s.length)) =
          r :: rs.filter (fun s => decide (s.pos ≤ i) && decide (i < s.pos + s.length)) := by
        rw [List.filter_cons, if_pos (by simp [hc.1, hc.2])]
      rw [hfil]
      simp only [List.map_cons, List.foldl_cons]
      rw [ih _ hlen2, apply_open_penalty, fill_n_if_less_getD _ _ _ _ _ hi, if_pos hc]
    · have hfil : (r :: rs).filter (fun s => decide (s.pos ≤ i) && decide (i < s.pos + s.length)) =
          rs.filter (fun s => decide (s.pos ≤ i) && decide (i < s.pos + s.length)) := by
        rw [List.filter_cons, if_neg]
        rcases not_and_or.mp hc with h | h <;> simp [h]
      rw [hfil]
      rw [ih _ hlen2, apply_open_penalty, fill_n_if_less_getD _ _ _ _ _ hi, if_neg hc]

theorem max_repeat_fold_general (l : List TandemRepeat) (b : TandemRepeat) :
    (l.foldl (fun best r => if best.length < r.length then r else best) b = b ∨
     l.foldl (fun best r => if best.length < r.length then r else best) b ∈ l) ∧
    b.length ≤ (l.foldl (fun best r => if best.length < r.length then r else best) b).length ∧
    ∀ s ∈ l, s.length ≤ (l.foldl (fun best r => if best.length < r.length then r else best) b).length := by
  induction l generalizing b with
  | nil => exact ⟨Or.inl rfl, le_refl _, by simp⟩
  | cons r rs ih =>
    simp only [List.foldl_cons]
    by_cases hc : b.length < r.length
    · rw [if_pos hc]
      rcases ih r with ⟨hmem, hacc, hmax⟩
      refine ⟨?_, ?_, ?_⟩
      · rcases hmem with h | h
        · exact Or.inr (by rw [h]; exact List.mem_cons_self r rs)
        · exact Or.inr (List.mem_cons_of_mem r h)
      · exact le_trans (le_of_lt hc) hacc
      · intro s hs
        rcases List.mem_cons.mp hs with h | h
        · subst h
          exact hacc
        · exact hmax s h
    · rw [if_neg hc]
      rcases ih b with ⟨hmem, hacc, hmax⟩
      refine ⟨?_, ?_, ?_⟩
      · rcases hmem with h | h
        · exact Or.inl h
        · exact Or.inr (List.mem_cons_of_mem r h)
      · exact hacc
      · intro s hs
        rcases List.mem_cons.mp hs with h | h
        · subst h
          omega
        · exact hmax s h

theorem max_repeat_fold_spec (repeats : List TandemRepeat) :
    (max_repeat_fold repeats = ⟨0, 0, 0⟩ ∨ max_repeat_fold repeats ∈ repeats) ∧
    ∀ s ∈ repeats, s.length ≤ (max_repeat_fold repeats).length := by
  rcases max_repeat_fold_general repeats ⟨0, 0, 0⟩ with ⟨hmem, _, hmax⟩
  exact ⟨hmem, hmax⟩

/-- C7: for every haplotype sequence, the scalar-form repeat model output
has a gap-open vector of the sequence's length whose entry at each position
is the minimum of the default open penalty and the open penalties of all
extracted repeats covering that position, and a gap-extend penalty equal to
the extension penalty of the motif and length of a longest extracted repeat
(the default extension penalty when there is none). -/
theorem repeat_model_scalar_penalties {β : Type} (default_open default_extension : ℤ)
    (get_open_penalty get_extension_penalty : List β → Nat → ℤ)
    (seq : List β) (repeats : List TandemRepeat)
    (hin : ∀ r ∈ repeats, r.pos + r.length ≤ seq.length)
    (hperiod : ∀ r ∈ repeats, 1 ≤ r.period ∧ r.period ≤ 5)
    (hlen : ∀ r ∈ repeats, 0 < r.length) :
    (do_set_penalties_scalar default_open default_extension
        get_open_penalty get_extension_penalty seq repeats).1.length = seq.length ∧
    (∀ i, i < seq.length →
      (do_set_penalties_scalar default_open default_extension
          get_open_penalty get_extension_penalty seq repeats).1.getD i 0 =
        ((repeats.filter (fun r => decide (r.pos ≤ i) && decide (i < r.pos + r.length))).map
          (fun r => get_open_penalty (set_motif seq r) r.length)).foldl min default_open) ∧
    (repeats = [] →
      (do_set_penalties_scalar default_open default_extension
          get_open_penalty get_extension_penalty seq repeats).2 = default_extension) ∧
    (repeats ≠ [] →
      ∃ r ∈ repeats, (∀ s ∈ repeats, s.length ≤ r.length) ∧
        (do_set_penalties_scalar default_open default_extension
            get_open_penalty get_extension_penalty seq repeats).2 =
          get_extension_penalty (set_motif seq r) r.length) := by
  refine ⟨?_, ?_, ?_, ?_⟩
  · rw [do_set_penalties_scalar_fst, foldl_apply_open_length, List.length_replicate]
  · intro i hi
    rw [do_set_penalties_scalar_fst,
        foldl_apply_open_getD _ _ _ _ _ (by simpa using hi)]
    congr 1
    simp only [List.getD_eq_getElem?_getD, List.getElem?_replicate, if_pos hi]
    rfl
  · intro h
    subst h
    rfl
  · intro h
    rw [do_set_penalties_scalar_snd, if_neg (by simpa using h)]
    rcases max_repeat_fold_spec repeats with ⟨hmem, hmax⟩
    rcases hmem with hz | hm
    · exfalso
      rcases List.exists_mem_of_ne_nil repeats h with ⟨r, hr⟩
      have h1 := hlen r hr
      have h2 := hmax r hr
      rw [hz] at h2
      simp at h2
      omega
    · exact ⟨max_repeat_fold repeats, hm, hmax, rfl⟩

/-- C7 witness: the theorem instantiated at a concrete four-base sequence
with a single dinucleotide repeat covering the whole sequence. -/
theorem repeat_model_scalar_penalties_witness :
    ((do_set_penalties_scalar (3 : ℤ) 4 (fun _ _ => 1) (fun _ _ => 2)
        [0, 1, 0, 1] [⟨0, 2, 4⟩]).1.length = ([0, 1, 0, 1] : List ℤ).length) ∧
    (∀ i, i < ([0, 1, 0, 1] : List ℤ).length →
      (do_set_penalties_scalar (3 : ℤ) 4 (fun _ _ => 1) (fun _ _ => 2)
          [0, 1, 0, 1] [⟨0, 2, 4⟩]).1.getD i 0 =
        ((([⟨0, 2, 4⟩] : List TandemRepeat).filter
            (fun r => decide (r.pos ≤ i) && decide (i < r.pos + r.length))).map
          (fun r => (fun (_ : List ℤ) (_ : Nat) => (1 : ℤ)) (set_motif [0, 1, 0, 1] r) r.length)).foldl
            min 3) ∧
    (([⟨0, 2, 4⟩] : List TandemRepeat) = [] →
      (do_set_penalties_scalar (3 : ℤ) 4 (fun _ _ => 1) (fun _ _ => 2)
          [0, 1, 0, 1] [⟨0, 2, 4⟩]).2 = 4) ∧
    (([⟨0, 2, 4⟩] : List TandemRepeat) ≠ [] →
      ∃ r ∈ ([⟨0, 2, 4⟩] : List TandemRepeat),
        (∀ s ∈ ([⟨0, 2, 4⟩] : List TandemRepeat), s.length ≤ r.length) ∧
        (do_set_penalties_scalar (3 : ℤ) 4 (fun _ _ => 1) (fun _ _ => 2)
            [0, 1, 0, 1] [⟨0, 2, 4⟩]).2 =
          (fun (_ : List ℤ) (_ : Nat) => (2 : ℤ)) (set_motif [0, 1, 0, 1] r) r.length) :=
  repeat_model_scalar_penalties 3 4 (fun _ _ => 1) (fun _ _ => 2) [0, 1, 0, 1] [⟨0, 2, 4⟩]
    (by intro r hr; simp at hr; subst hr; decide)
    (by intro r hr; simp at hr; subst hr; decide)
    (by intro r hr; simp at hr; subst hr; decide)

/- ====================================================================
   C2: HaplotypeLikelihoodModel::log_probability
   (src/haplotype_liklihood_model.cpp)
   ==================================================================== -/

/-- num_out_of_range_bases (haplotype_liklihood_model.cpp lines 25-35): the
amount by which read length + mapping position + 15 exceeds the haplotype
length, 0 when it does not. -/
def num_out_of_range_bases (mapping_position read_len hap_len : Nat) : Nat :=
  if hap_len < read_len + mapping_position + 15
  then read_len + mapping_position + 15 - hap_len
  else 0

/-- is_in_range (haplotype_liklihood_model.cpp lines 37-41). -/
def is_in_range (mapping_position read_len hap_len : Nat) : Bool :=
  num_out_of_range_bases mapping_position read_len hap_len == 0

/-- Octopus::log_probability (haplotype_liklihood_model.cpp lines 44-112)
with the pair-HMM alignment PairHMM::align_around_offset abstracted as a
real-valued function of the anchor position (haplotype, read, qualities and
gap penalties are fixed).  Doubles are idealised as extended reals with the
running maximum started at negative infinity; the code starts it at the
lowest finite double and overwrites it whenever no in-range position
exists, so the two agree on every returned value. -/
noncomputable def hlm_log_probability (align : Nat → ℝ) (candidates : List Nat)
    (read_len hap_len original_pos : Nat) : EReal :=
  let in_range_cands := candidates.filter (fun p => is_in_range p read_len hap_len)
  let max_cands : EReal :=
    in_range_cands.foldl (fun m p => max m ((align p : ℝ) : EReal)) ⊥
  let orig_extra := !(candidates.contains original_pos) &&
                    is_in_range original_pos read_len hap_len
  let max_all := if orig_extra then max max_cands ((align original_pos : ℝ) : EReal)
                 else max_cands
  if !in_range_cands.isEmpty || orig_extra then max_all
  else ((align (original_pos - num_out_of_range_bases original_pos read_len hap_len) : ℝ) : EReal)

/-- The positions whose alignments the function evaluates when at least one
position is in range: the in-range candidates, plus the read's original
mapping position when it is in range and absent from the candidate list. -/
def hlm_eligible_positions (candidates : List Nat) (read_len hap_len original_pos : Nat) :
    List Nat :=
  candidates.filter (fun p => is_in_range p read_len hap_len) ++
    (if !(candidates.contains original_pos) &&
        is_in_range original_pos read_len hap_len
     then [original_pos] else [])

theorem foldl_max_ereal_le (l : List EReal) (b : EReal) :
    b ≤ l.foldl max b ∧ ∀ x ∈ l, x ≤ l.foldl max b := by
  induction l generalizing b with
  | nil => exact ⟨le_refl _, by simp⟩
  | cons y ys ih =>
    simp only [List.foldl_cons]
    rcases ih (max b y) with ⟨h1, h2⟩
    refine ⟨le_trans (le_max_left b y) h1, ?_⟩
    intro x hx
    rcases List.mem_cons.mp hx with h | h
    · rw [h]
      exact le_trans (le_max_right b y) h1
    · exact h2 x h

theorem foldl_max_ereal_mem (l : List EReal) (b : EReal) :
    l.foldl max b = b ∨ l.foldl max b ∈ l := by
  induction l generalizing b with
  | nil => exact Or.inl rfl
  | cons y ys ih =>
    simp only [List.foldl_cons]
    rcases ih (max b y) with h | h
    · rcases max_cases b y with ⟨hm, _⟩ | ⟨hm, _⟩
      · exact Or.inl (h.trans hm)
      · exact Or.inr (by rw [h, hm]; exact List.mem_cons_self y ys)
    · exact Or.inr (List.mem_cons_of_mem y h)

/-- C2: HaplotypeLikelihoodModel::log_probability returns the maximum
pair-HMM score over all in-range candidate positions (a position p is in
range iff read length + p + 15 ≤ haplotype length), additionally evaluating
the original mapping position when it is in range and absent from the
candidates; when no position is in range it returns the score at the
original position shifted left by exactly the minimum out-of-range amount;
and the returned value is strictly above negative infinity.  The hypothesis
mirrors the callers' invariant that the read fits the padded haplotype. -/
theorem hlm_log_probability_spec (align : Nat → ℝ) (candidates : List Nat)
    (read_len hap_len original_pos : Nat)
    (hpad : read_len + 15 ≤ hap_len) :
    (∀ p, is_in_range p read_len hap_len = true ↔ read_len + p + 15 ≤ hap_len) ∧
    ⊥ < hlm_log_probability align candidates read_len hap_len original_pos ∧
    (hlm_eligible_positions candidates read_len hap_len original_pos ≠ [] →
      (∃ p ∈ hlm_eligible_positions candidates read_len hap_len original_pos,
        hlm_log_probability align candidates read_len hap_len original_pos =
          ((align p : ℝ) : EReal)) ∧
      (∀ p ∈ hlm_eligible_positions candidates read_len hap_len original_pos,
        ((align p : ℝ) : EReal) ≤
          hlm_log_probability align candidates read_len hap_len original_pos)) ∧
    (hlm_eligible_positions candidates read_len hap_len original_pos = [] →
      num_out_of_range_bases original_pos read_len hap_len ≤ original_pos ∧
      hlm_log_probability align candidates read_len hap_len original_pos =
        ((align (original_pos -
            num_out_of_range_bases original_pos read_len hap_len) : ℝ) : EReal)) := by
  have hrange : ∀ p, is_in_range p read_len hap_len = true ↔ read_len + p + 15 ≤ hap_len := by
    intro p
    unfold is_in_range num_out_of_range_bases
    by_cases h : hap_len < read_len + p + 15
    · rw [if_pos h]
      constructor
      · intro hb
        exfalso
        have : read_len + p + 15 - hap_len = 0 := by simpa using hb
        omega
      · intro hle
        omega
    · rw [if_neg h]
      constructor
      · intro _
        omega
      · intro _
        rfl
  set inR := candidates.filter (fun p => is_in_range p read_len hap_len) with hinR
  set orig_extra := (!(candidates.contains original_pos) &&
      is_in_range original_pos read_len hap_len) with horig
  have heligible : hlm_eligible_positions candidates read_len hap_len original_pos =
      inR ++ (if orig_extra then [original_pos] else []) := rfl
  by_cases hcase : (!inR.isEmpty || orig_extra) = true
  · -- at least one in-range position exists
    have hne : hlm_eligible_positions candidates read_len hap_len original_pos ≠ [] := by
      rw [heligible]
      rcases Bool.or_eq_true_iff.mp hcase with h | h
      · intro hap
        rcases List.append_eq_nil.mp hap with ⟨h1, _⟩
        rw [h1] at h
        simp at h
      · rw [if_pos h]
        simp
    have hres : hlm_log_probability align candidates read_len hap_len original_pos =
        ((hlm_eligible_positions candidates read_len hap_len original_pos).map
          (fun p => ((align p : ℝ) : EReal))).foldl max ⊥ := by
      unfold hlm_log_probability
      rw [← hinR, ← horig]
      simp only [hcase, if_true]
      rw [heligible, List.map_append, List.foldl_append]
      rw [List.foldl_map, List.foldl_map]
      by_cases ho : orig_extra = true
      · rw [if_pos ho, if_pos ho]
        simp
      · rw [if_neg ho, if_neg ho]
        simp
    rcases foldl_max_ereal_le ((hlm_eligible_positions candidates read_len hap_len
        original_pos).map (fun p => ((align p : ℝ) : EReal))) ⊥ with ⟨_, hle⟩
    have hmem := foldl_max_ereal_mem ((hlm_eligible_positions candidates read_len hap_len
        original_pos).map (fun p => ((align p : ℝ) : EReal))) ⊥
    have hex : ∃ p ∈ hlm_eligible_positions candidates read_len hap_len original_pos,
        hlm_log_probability align candidates read_len hap_len original_pos =
          ((align p : ℝ) : EReal) := by
      rcases hmem with h | h
      · exfalso
        rcases List.exists_mem_of_ne_nil _ hne with ⟨p, hp⟩
        have := hle _ (List.mem_map_of_mem (fun p => ((align p : ℝ) : EReal)) hp)
        rw [h] at this
        exact absurd (lt_of_lt_of_le (EReal.bot_lt_coe (align p)) this) (lt_irrefl ⊥)
      · rcases List.mem_map.mp h with ⟨p, hp, hpe⟩
        exact ⟨p, hp, by rw [hres, ← hpe]⟩
    rcases hex with ⟨p0, hp0, hp0e⟩
    refine ⟨hrange, ?_, ?_, ?_⟩
    · rw [hp0e]
      exact EReal.bot_lt_coe (align p0)
    · intro _
      refine ⟨⟨p0, hp0, hp0e⟩, ?_⟩
      intro p hp
      rw [hres]
      exact hle _ (List.mem_map_of_mem (fun p => ((align p : ℝ) : EReal)) hp)
    · intro hnil
      exact absurd hnil hne
  · -- no in-range position: the original position is shifted into range
    have hcase2 : (!inR.isEmpty || orig_extra) = false := by
      simpa using hcase
    have hnil : hlm_eligible_positions candidates read_len hap_len original_pos = [] := by
      rw [heligible]
      rcases Bool.or_eq_false_iff.mp hcase2 with ⟨h1, h2⟩
      have : inR.isEmpty = true := by simpa using h1
      rw [List.isEmpty_iff.mp this, if_neg (by simp [h2])]
      rfl
    have hres : hlm_log_probability align candidates read_len hap_len original_pos =
        ((align (original_pos -
            num_out_of_range_bases original_pos read_len hap_len) : ℝ) : EReal) := by
      unfold hlm_log_probability
      rw [← hinR, ← horig]
      simp [hcase2]
    refine ⟨hrange, ?_, ?_, ?_⟩
    · rw [hres]
      exact EReal.bot_lt_coe _
    · intro hne
      exact absurd hnil hne
    · intro _
      refine ⟨?_, hres⟩
      unfold num_out_of_range_bases
      by_cases h : hap_len < read_len + original_pos + 15
      · rw [if_pos h]
        omega
      · rw [if_neg h]
        omega

/-- C2 witness: a read of length 1 against a haplotype of length 16, with
an empty candidate list and original mapping position 5, which is out of
range and therefore shifted left by 5. -/
theorem hlm_log_probability_spec_witness :
    (∀ p, is_in_range p 1 16 = true ↔ 1 + p + 15 ≤ 16) ∧
    ⊥ < hlm_log_probability (fun _ => 0) [] 1 16 5 ∧
    (hlm_eligible_positions [] 1 16 5 ≠ [] →
      (∃ p ∈ hlm_eligible_positions [] 1 16 5,
        hlm_log_probability (fun _ => 0) [] 1 16 5 = (((fun _ => (0 : ℝ)) p : ℝ) : EReal)) ∧
      (∀ p ∈ hlm_eligible_positions [] 1 16 5,
        (((fun _ => (0 : ℝ)) p : ℝ) : EReal) ≤ hlm_log_probability (fun _ => 0) [] 1 16 5)) ∧
    (hlm_eligible_positions [] 1 16 5 = [] →
      num_out_of_range_bases 5 1 16 ≤ 5 ∧
      hlm_log_probability (fun _ => 0) [] 1 16 5 =
        (((fun _ => (0 : ℝ)) (5 - num_out_of_range_bases 5 1 16) : ℝ) : EReal)) :=
  hlm_log_probability_spec (fun _ => 0) [] 1 16 5 (by omega)

/- ====================================================================
   Shared: enumeration of joint genotype index tuples
   (population_model.cpp lines 339-361, single_cell_model.cpp lines 195-230)
   ==================================================================== -/

/-- The set of tuples assigning one genotype index below num_genotypes to
each of k slots.  The C++ enumerates these via prev_permutation over a
block-structured bit vector (population_model.cpp lines 339-361); the
enumeration order is irrelevant to every property proved here. -/
def all_genotype_tuples (num_genotypes : Nat) : Nat → List (List Nat)
  | 0 => [[]]
  | Nat.succ k => (List.range num_genotypes).flatMap
      (fun g => (all_genotype_tuples num_genotypes k).map (fun t => g :: t))

theorem all_genotype_tuples_shape (G k : Nat) :
    ∀ t ∈ all_genotype_tuples G k, t.length = k ∧ ∀ g ∈ t, g < G := by
  induction k with
  | zero =>
    intro t ht
    simp only [all_genotype_tuples, List.mem_singleton] at ht
    subst ht
    exact ⟨rfl, by simp⟩
  | succ k ih =>
    intro t ht
    simp only [all_genotype_tuples, List.mem_flatMap, List.mem_map] at ht
    rcases ht with ⟨g, hg, t0, ht0, rfl⟩
    rcases ih t0 ht0 with ⟨hlen, hmem⟩
    refine ⟨by simp [hlen], ?_⟩
    intro x hx
    rcases List.mem_cons.mp hx with h | h
    · subst h
      exact List.mem_range.mp hg
    · exact hmem x h

theorem mem_all_genotype_tuples (G k : Nat) (t : List Nat)
    (hlen : t.length = k) (hmem : ∀ g ∈ t, g < G) :
    t ∈ all_genotype_tuples G k := by
  induction k generalizing t with
  | zero =>
    rw [List.length_eq_zero.mp hlen]
    simp [all_genotype_tuples]
  | succ k ih =>
    cases t with
    | nil => simp at hlen
    | cons g t0 =>
      simp only [all_genotype_tuples, List.mem_flatMap, List.mem_map]
      refine ⟨g, List.mem_range.mpr (hmem g (List.mem_cons_self g t0)), t0, ?_, rfl⟩
      exact ih t0 (by simpa using hlen) (fun x hx => hmem x (List.mem_cons_of_mem g hx))

/- ====================================================================
   C8: SingleCellModel::propose_genotype_combinations
   (core/models/genotype/single_cell_model.cpp lines 139-230)
   ==================================================================== -/

/-- The duplicate test applied to each proposed combination: true when some
genotype index occurs more than once (the hits array of
propose_all_genotype_combinations lines 216-226 and the counts array of the
remove_if predicate lines 179-184). -/
def has_duplicate_index (t : List Nat) : Bool :=
  t.any (fun x => decide (1 < t.count x))

theorem has_duplicate_index_eq_false_iff (t : List Nat) :
    has_duplicate_index t = false ↔ t.Nodup := by
  constructor
  · intro h
    rw [List.nodup_iff_count_le_one]
    intro a
    by_cases ha : a ∈ t
    · by_contra hc
      have htrue : has_duplicate_index t = true := by
        unfold has_duplicate_index
        rw [List.any_eq_true]
        exact ⟨a, ha, by simp; omega⟩
      rw [h] at htrue
      exact Bool.false_ne_true htrue
    · rw [List.count_eq_zero.mpr ha]
      omega
  · intro h
    rw [Bool.eq_false_iff]
    intro hc
    unfold has_duplicate_index at hc
    rw [List.any_eq_true] at hc
    rcases hc with ⟨a, ha, hlt⟩
    have := (List.nodup_iff_count_le_one.mp h) a
    simp at hlt
    omega

/-- SingleCellModel::propose_all_genotype_combinations (single_cell_model.cpp
lines 195-230): enumerate every assignment of one genotype index per
phylogeny group and keep those whose indices are pairwise distinct. -/
def propose_all_genotype_combinations (num_genotypes num_groups : Nat) : List (List Nat) :=
  (all_genotype_tuples num_genotypes num_groups).filter
    (fun t => !(has_duplicate_index t))

/-- The doubling retry loop of propose_genotype_combinations
(single_cell_model.cpp lines 174-186): filter the top-k tuples returned by
select_top_k_tuples, doubling k while the deduplication empties the set.
select_top_k_tuples (utils/select_top_k.hpp, not among the sources) is an
oracle argument; the fuel bounds the otherwise unbounded source loop and
the empty list stands for its non-termination. -/
def topk_dedup_loop (select_tuples : Nat → List (List Nat)) : Nat → Nat → List (List Nat)
  | 0, _ => []
  | Nat.succ fuel, k =>
    let result := (select_tuples k).filter (fun t => !(has_duplicate_index t))
    if result.isEmpty then topk_dedup_loop select_tuples fuel (2 * k) else result

/-- SingleCellModel::propose_genotype_combinations (single_cell_model.cpp
lines 139-193): exhaustive enumeration when the combination count fits the
configured maximum, otherwise the clustering/top-k path followed by the
deduplicating retry loop and truncation to the maximum. -/
def propose_genotype_combinations (num_genotypes num_groups max_combinations : Nat)
    (select_tuples : Nat → List (List Nat)) (fuel : Nat) : List (List Nat) :=
  if num_genotypes ^ num_groups ≤ max_combinations
  then propose_all_genotype_combinations num_genotypes num_groups
  else (topk_dedup_loop select_tuples fuel max_combinations).take max_combinations

theorem topk_dedup_loop_nodup (select_tuples : Nat → List (List Nat)) (fuel k : Nat) :
    ∀ t ∈ topk_dedup_loop select_tuples fuel k, t.Nodup := by
  induction fuel generalizing k with
  | zero =>
    intro t ht
    simp [topk_dedup_loop] at ht
  | succ fuel ih =>
    intro t ht
    simp only [topk_dedup_loop] at ht
    by_cases hres : ((select_tuples k).filter (fun t => !(has_duplicate_index t))).isEmpty = true
    · rw [if_pos hres] at ht
      exact ih (2 * k) t ht
    · rw [if_neg hres] at ht
      rcases List.mem_filter.mp ht with ⟨_, hkeep⟩
      exact (has_duplicate_index_eq_false_iff t).mp (by simpa using hkeep)

/-- C8: every genotype combination returned by
SingleCellModel::propose_genotype_combinations, on both the exhaustive path
and the clustering/top-k path with its doubling retry loop, assigns
pairwise-distinct genotype indices to the phylogeny groups. -/
theorem propose_genotype_combinations_nodup (num_genotypes num_groups max_combinations : Nat)
    (select_tuples : Nat → List (List Nat)) (fuel : Nat) :
    ∀ t ∈ propose_genotype_combinations num_genotypes num_groups max_combinations
        select_tuples fuel, t.Nodup := by
  intro t ht
  unfold propose_genotype_combinations at ht
  by_cases hc : num_genotypes ^ num_groups ≤ max_combinations
  · rw [if_pos hc] at ht
    rcases List.mem_filter.mp ht with ⟨_, hkeep⟩
    exact (has_duplicate_index_eq_false_iff t).mp (by simpa using hkeep)
  · rw [if_neg hc] at ht
    exact topk_dedup_loop_nodup select_tuples fuel max_combinations t
      (List.take_subset _ _ ht)

/-- C8 witness: with two genotypes and two groups the exhaustive path
returns the combination (0, 1), and the theorem yields its distinctness. -/
theorem propose_genotype_combinations_nodup_witness :
    [0, 1] ∈ propose_genotype_combinations 2 2 10 (fun _ => []) 1 ∧
    ([0, 1] : List Nat).Nodup :=
  ⟨by decide, propose_genotype_combinations_nodup 2 2 10 (fun _ => []) 1 [0, 1] (by decide)⟩

/- ====================================================================
   C1 and C6: PopulationModel::evaluate
   (core/models/genotype/population_model.cpp)
   ==================================================================== -/

/-- Modelled from the spec: maths::normalise_exp (utils/maths.hpp, not
among the sources) normalises a vector of log values in place to
probabilities exp(x_i)/sum_j exp(x_j) — computed with the explicit
max-shift the spec prescribes for log-sum-exp, which in real arithmetic is
the plain softmax — and returns the log normaliser. -/
noncomputable def normalise_exp (xs : List ℝ) : List ℝ × ℝ :=
  (xs.map (fun x => Real.exp x / (xs.map Real.exp).sum),
   Real.log (xs.map Real.exp).sum)

/-- The per-combination joint score of calculate_posteriors
(population_model.cpp lines 488-503): prior of the tuple plus the sum over
samples of the sample's log likelihood of its assigned genotype. -/
noncomputable def joint_score (prior : List Nat → ℝ) (likelihoods : List (List ℝ))
    (tup : List Nat) : ℝ :=
  prior tup + (List.zipWith (fun row g => row.getD g 0) likelihoods tup).sum

/-- calculate_posteriors (population_model.cpp lines 488-503): score every
joint genotype and normalise with normalise_exp.  The prior model is
abstracted as a function of the index tuple. -/
noncomputable def calculate_posteriors (prior : List Nat → ℝ) (likelihoods : List (List ℝ))
    (joint_genotypes : List (List Nat)) : List ℝ × ℝ :=
  normalise_exp (joint_genotypes.map (joint_score prior likelihoods))

/-- One i-iteration of set_posterior_marginals for one sample row:
marginals[s][tup[s]] += p. -/
def addAt (p : ℝ) (row : List ℝ) (g : Nat) : List ℝ :=
  row.set g (row.getD g 0 + p)

/-- set_posterior_marginals (population_model.cpp lines 524-538):
accumulate each joint posterior into the per-sample marginal at the
genotype the combination assigns to that sample. -/
def set_posterior_marginals (joint_genotypes : List (List Nat)) (joint_posteriors : List ℝ)
    (num_genotypes num_samples : Nat) : List (List ℝ) :=
  (joint_genotypes.zip joint_posteriors).foldl
    (fun m tp => List.zipWith (addAt tp.2) m tp.1)
    (List.replicate num_samples (List.replicate num_genotypes 0))

/-- PopulationModel::InferredLatents (population_model.hpp): per-sample
marginal genotype probabilities and the log evidence. -/
structure PopulationInferredLatents where
  marginal_genotype_probabilities : List (List ℝ)
  log_evidence : ℝ

/-- calculate_posterior_marginals (population_model.cpp lines 540-552). -/
noncomputable def calculate_posterior_marginals (prior : List Nat → ℝ)
    (likelihoods : List (List ℝ)) (joint_genotypes : List (List Nat))
    (num_genotypes : Nat) : PopulationInferredLatents :=
  let pr := calculate_posteriors prior likelihoods joint_genotypes
  { marginal_genotype_probabilities :=
      set_posterior_marginals joint_genotypes pr.1 num_genotypes likelihoods.length
  , log_evidence := pr.2 }

/-- is_homozygous_reference and find_hom_ref_idx (population_model.cpp
lines 363-378): index of the first genotype satisfying the homozygous
reference test, found by linear scan.  Genotypes are abstract here; the
test (which inspects Haplotype internals external to the sources) is a
predicate argument. -/
def find_hom_ref_idx {G : Type} (genotypes : List G) (is_hom_ref : G → Bool) : Option Nat :=
  genotypes.findIdx? is_hom_ref

/-- The loop of propose_joint_genotypes (population_model.cpp lines
441-451) that, for every selected top genotype index and sample slot,
copies the first proposed tuple with that slot replaced and appends the
copy unless it is already present.  front is result.front(), which the
loop never changes. -/
def propose_extend (front : List Nat) (num_samples : Nat) (top_genotypes : List Nat)
    (r : List (List Nat)) : List (List Nat) :=
  top_genotypes.foldl (fun acc gidx =>
    (List.range num_samples).foldl (fun acc2 sidx =>
      if front.getD sidx 0 ≠ gidx then
        (if front.set sidx gidx ∈ acc2 then acc2 else acc2 ++ [front.set sidx gidx])
      else acc2) acc) r

/-- result.back() = ref_indices (population_model.cpp line 456): replace
the last proposed tuple. -/
def set_back_tuple (r : List (List Nat)) (x : List Nat) : List (List Nat) :=
  r.dropLast ++ [x]

/-- propose_joint_genotypes (population_model.cpp lines 429-460).
select_top_k_tuples (utils/select_top_k.hpp) is not among the sources and
select_top_k_genotypes (lines 390-427) is nondeterministic through
std::nth_element, so both are oracle arguments; everything else is the
source's control flow: exhaustive enumeration when it fits, otherwise the
top-k tuples extended with single-slot variants and, when a homozygous
reference genotype exists and its constant tuple is absent, that tuple
written over the last entry. -/
def propose_joint_genotypes (num_genotypes : Nat) (em_marginals : List (List ℝ))
    (max_joint_genotypes : Nat)
    (select_top_k_tuples : List (List ℝ) → Nat → List (List Nat))
    (select_top_k_genotypes : List (List ℝ) → Nat → List Nat)
    (hom_ref_idx : Option Nat) : List (List Nat) :=
  let num_samples := em_marginals.length
  if num_genotypes ^ num_samples ≤ max_joint_genotypes then
    all_genotype_tuples num_genotypes num_samples
  else
    let r0 := select_top_k_tuples em_marginals max_joint_genotypes
    let r1 := propose_extend r0.headI num_samples
                (select_top_k_genotypes em_marginals (num_samples / 2)) r0
    match hom_ref_idx with
    | none => r1
    | some idx =>
      if List.replicate num_samples idx ∈ r1 then r1
      else set_back_tuple r1 (List.replicate num_samples idx)

/-- PopulationModel::evaluate (population_model.cpp lines 556-574) given
the per-sample genotype log-likelihood matrix (one row per sample, as
computed by compute_genotype_log_likelihoods): exact enumeration when the
joint count fits max_joint_genotypes, otherwise the EM/top-k approximate
path.  The EM marginals (compute_approx_genotype_marginal_posteriors) only
feed the two selection oracles, so they enter as an argument; the claims
proved below hold for every value of it. -/
noncomputable def PopulationModel.evaluate {G : Type} (prior : List Nat → ℝ)
    (genotypes : List G) (is_hom_ref : G → Bool)
    (likelihoods : List (List ℝ)) (max_joint_genotypes : Nat)
    (em_marginals : List (List ℝ))
    (select_top_k_tuples : List (List ℝ) → Nat → List (List Nat))
    (select_top_k_genotypes : List (List ℝ) → Nat → List Nat) :
    PopulationInferredLatents :=
  if genotypes.length ^ likelihoods.length ≤ max_joint_genotypes then
    calculate_posterior_marginals prior likelihoods
      (all_genotype_tuples genotypes.length likelihoods.length) genotypes.length
  else
    calculate_posterior_marginals prior likelihoods
      (propose_joint_genotypes genotypes.length em_marginals max_joint_genotypes
        select_top_k_tuples select_top_k_genotypes
        (find_hom_ref_idx genotypes is_hom_ref)) genotypes.length

theorem sum_map_exp_nonneg (xs : List ℝ) : 0 ≤ (xs.map Real.exp).sum := by
  apply List.sum_nonneg
  intro x hx
  rcases List.mem_map.mp hx with ⟨y, _, rfl⟩
  exact le_of_lt (Real.exp_pos y)

theorem sum_map_exp_pos (xs : List ℝ) (h : xs ≠ []) : 0 < (xs.map Real.exp).sum := by
  rcases List.exists_mem_of_ne_nil xs h with ⟨x, hx⟩
  have hmem : Real.exp x ∈ xs.map Real.exp := List.mem_map_of_mem Real.exp hx
  have hle := List.single_le_sum (l := xs.map Real.exp)
    (fun y hy => by
      rcases List.mem_map.mp hy with ⟨z, _, rfl⟩
      exact le_of_lt (Real.exp_pos z)) _ hmem
  exact lt_of_lt_of_le (Real.exp_pos x) hle

theorem sum_map_div_const (l : List ℝ) (c : ℝ) : (l.map (fun x => x / c)).sum = l.sum / c := by
  induction l with
  | nil => simp
  | cons x xs ih => simp [ih, add_div]

theorem normalise_exp_nonneg (xs : List ℝ) : ∀ x ∈ (normalise_exp xs).1, 0 ≤ x := by
  intro x hx
  unfold normalise_exp at hx
  rcases List.mem_map.mp hx with ⟨y, _, rfl⟩
  exact div_nonneg (le_of_lt (Real.exp_pos y)) (sum_map_exp_nonneg xs)

theorem normalise_exp_sum (xs : List ℝ) (h : xs ≠ []) : (normalise_exp xs).1.sum = 1 := by
  unfold normalise_exp
  have hrw : xs.map (fun x => Real.exp x / (xs.map Real.exp).sum) =
      (xs.map Real.exp).map (fun x => x / (xs.map Real.exp).sum) := by
    rw [List.map_map]
    rfl
  simp only [hrw, sum_map_div_const]
  exact div_self (ne_of_gt (sum_map_exp_pos xs h))

theorem normalise_exp_length (xs : List ℝ) : (normalise_exp xs).1.length = xs.length := by
  unfold normalise_exp
  simp

theorem getD_mem_of_lt {α : Type} (l : List α) (i : Nat) (d : α) (h : i < l.length) :
    l.getD i d ∈ l := by
  rw [List.getD_eq_getElem l d h]
  exact List.getElem_mem h

theorem zipWith_getD {α β γ : Type} (f : α → β → γ) (l1 : List α) (l2 : List β)
    (i : Nat) (d1 : α) (d2 : β) (d3 : γ) (h1 : i < l1.length) (h2 : i < l2.length) :
    (List.zipWith f l1 l2).getD i d3 = f (l1.getD i d1) (l2.getD i d2) := by
  have hz : i < (List.zipWith f l1 l2).length := by
    rw [List.length_zipWith]
    omega
  rw [List.getD_eq_getElem _ d3 hz, List.getD_eq_getElem l1 d1 h1,
      List.getD_eq_getElem l2 d2 h2]
  exact List.getElem_zipWith ..

theorem addAt_length (p : ℝ) (row : List ℝ) (g : Nat) :
    (addAt p row g).length = row.length := by
  unfold addAt
  exact List.length_set row g _

theorem addAt_sum (p : ℝ) (row : List ℝ) (g : Nat) (h : g < row.length) :
    (addAt p row g).sum = row.sum + p := by
  induction row generalizing g with
  | nil => simp at h
  | cons x xs ih =>
    cases g with
    | zero =>
      unfold addAt
      simp [List.set]
      ring
    | succ m =>
      have hm : m < xs.length := by simpa using h
      have := ih m hm
      unfold addAt at this ⊢
      simp only [List.getD_cons_succ, List.set]
      simp only [List.sum_cons, this]
      ring

theorem addAt_mem (p : ℝ) (row : List ℝ) (g : Nat) (x : ℝ) (hx : x ∈ addAt p row g) :
    x ∈ row ∨ x = row.getD g 0 + p := by
  unfold addAt at hx
  exact List.mem_or_eq_of_mem_set hx

/-- Invariant of the set_posterior_marginals accumulation loop: shapes are
preserved and every sample row's total grows by the sum of the accumulated
joint posteriors. -/
theorem marginal_fold_spec (pairs : List (List Nat × ℝ)) (num_samples num_genotypes : Nat)
    (m0 : List (List ℝ))
    (hm0len : m0.length = num_samples)
    (hrows : ∀ i, i < num_samples → (m0.getD i []).length = num_genotypes)
    (hpairs : ∀ tp ∈ pairs, tp.1.length = num_samples ∧ ∀ g ∈ tp.1, g < num_genotypes) :
    (pairs.foldl (fun m tp => List.zipWith (addAt tp.2) m tp.1) m0).length = num_samples ∧
    (∀ i, i < num_samples →
      ((pairs.foldl (fun m tp => List.zipWith (addAt tp.2) m tp.1) m0).getD i []).length =
        num_genotypes) ∧
    (∀ i, i < num_samples →
      ((pairs.foldl (fun m tp => List.zipWith (addAt tp.2) m tp.1) m0).getD i []).sum =
        (m0.getD i []).sum + (pairs.map (fun tp => tp.2)).sum) := by
  induction pairs generalizing m0 with
  | nil => exact ⟨hm0len, hrows, by intro i _; simp⟩
  | cons tp rest ih =>
    rcases hpairs tp (List.mem_cons_self tp rest) with ⟨htlen, htmem⟩
    have hm1len : (List.zipWith (addAt tp.2) m0 tp.1).length = num_samples := by
      rw [List.length_zipWith, hm0len, htlen]
      omega
    have hm1get : ∀ i, i < num_samples →
        (List.zipWith (addAt tp.2) m0 tp.1).getD i [] =
          addAt tp.2 (m0.getD i []) (tp.1.getD i 0) := by
      intro i hi
      exact zipWith_getD (addAt tp.2) m0 tp.1 i [] 0 [] (by omega) (by omega)
    have hm1rows : ∀ i, i < num_samples →
        ((List.zipWith (addAt tp.2) m0 tp.1).getD i []).length = num_genotypes := by
      intro i hi
      rw [hm1get i hi, addAt_length]
      exact hrows i hi
    rcases ih (List.zipWith (addAt tp.2) m0 tp.1) hm1len hm1rows
      (fun q hq => hpairs q (List.mem_cons_of_mem tp hq)) with ⟨hlen, hrows2, hsum⟩
    refine ⟨by simpa using hlen, by simpa using hrows2, ?_⟩
    intro i hi
    have hstep := hsum i hi
    simp only [List.foldl_cons] at hstep ⊢
    rw [hstep, hm1get i hi, addAt_sum]
    · simp only [List.map_cons, List.sum_cons]
      ring
    · rw [hrows i hi]
      exact htmem _ (getD_mem_of_lt tp.1 i 0 (by omega))

/-- All entries stay non-negative through the accumulation loop when the
accumulated joint posteriors are non-negative. -/
theorem marginal_fold_nonneg (pairs : List (List Nat × ℝ)) (m0 : List (List ℝ))
    (hm0 : ∀ row ∈ m0, ∀ x ∈ row, 0 ≤ x)
    (hp : ∀ tp ∈ pairs, 0 ≤ tp.2) :
    ∀ row ∈ pairs.foldl (fun m tp => List.zipWith (addAt tp.2) m tp.1) m0,
      ∀ x ∈ row, 0 ≤ x := by
  induction pairs generalizing m0 with
  | nil => exact hm0
  | cons tp rest ih =>
    simp only [List.foldl_cons]
    apply ih
    · intro row hrow x hx
      rcases List.mem_iff_getElem.mp hrow with ⟨i, hi, hrow_eq⟩
      rw [List.getElem_zipWith] at hrow_eq
      have hi0 : i < m0.length := by
        rw [List.length_zipWith] at hi
        omega
      have hi1 : i < tp.1.length := by
        rw [List.length_zipWith] at hi
        omega
      rcases addAt_mem tp.2 (m0[i]) (tp.1[i]) x
        (by rw [hrow_eq]; exact hx) with h | h
      · exact hm0 m0[i] (List.getElem_mem hi0) x h
      · rw [h]
        have hnn : 0 ≤ (m0[i] : List ℝ).getD (tp.1[i]) 0 := by
          by_cases hb : (tp.1[i]) < (m0[i] : List ℝ).length
          · exact hm0 m0[i] (List.getElem_mem hi0) _ (getD_mem_of_lt _ _ 0 hb)
          · rw [List.getD_eq_default]
            omega
        have hq := hp tp (List.mem_cons_self tp rest)
        linarith
    · intro q hq
      exact hp q (List.mem_cons_of_mem tp hq)

/-- Shape and normalisation of the output of calculate_posterior_marginals:
for any non-empty joint genotype list whose tuples assign one in-range
genotype index per sample, each sample's marginal vector is a probability
vector over the candidate genotypes. -/
theorem calculate_posterior_marginals_spec (prior : List Nat → ℝ)
    (likelihoods : List (List ℝ)) (joint_genotypes : List (List Nat)) (num_genotypes : Nat)
    (hJ : joint_genotypes ≠ [])
    (hshape : ∀ t ∈ joint_genotypes, t.length = likelihoods.length ∧
        ∀ g ∈ t, g < num_genotypes) :
    (calculate_posterior_marginals prior likelihoods joint_genotypes
        num_genotypes).marginal_genotype_probabilities.length = likelihoods.length ∧
    ∀ row ∈ (calculate_posterior_marginals prior likelihoods joint_genotypes
        num_genotypes).marginal_genotype_probabilities,
      row.length = num_genotypes ∧ (∀ x ∈ row, 0 ≤ x) ∧ row.sum = 1 := by
  have hjp_len : (calculate_posteriors prior likelihoods joint_genotypes).1.length =
      joint_genotypes.length := by
    unfold calculate_posteriors
    rw [normalise_exp_length, List.length_map]
  have hjp_sum : (calculate_posteriors prior likelihoods joint_genotypes).1.sum = 1 := by
    unfold calculate_posteriors
    apply normalise_exp_sum
    intro hc
    exact hJ (List.map_eq_nil_iff.mp hc)
  set jp := (calculate_posteriors prior likelihoods joint_genotypes).1 with hjp
  have hjp_nonneg : ∀ x ∈ jp, 0 ≤ x := by
    rw [hjp]
    unfold calculate_posteriors
    exact normalise_exp_nonneg _
  have hzip_fst : ∀ tp ∈ joint_genotypes.zip jp, tp.1 ∈ joint_genotypes := by
    intro tp htp
    exact (List.of_mem_zip htp).1
  have hzip_snd_map : (joint_genotypes.zip jp).map (fun tp => tp.2) = jp := by
    rw [List.map_snd_zip]
    omega
  have hm0rows : ∀ i, i < likelihoods.length →
      ((List.replicate likelihoods.length
        (List.replicate num_genotypes (0 : ℝ))).getD i []).length = num_genotypes := by
    intro i hi
    rw [List.getD_eq_getElem _ [] (by simpa using hi), List.getElem_replicate,
        List.length_replicate]
  rcases marginal_fold_spec (joint_genotypes.zip jp) likelihoods.length num_genotypes
      (List.replicate likelihoods.length (List.replicate num_genotypes 0))
      (List.length_replicate ..) hm0rows
      (fun tp htp => hshape tp.1 (hzip_fst tp htp)) with ⟨hlen, hrows, hsums⟩
  have hnn := marginal_fold_nonneg (joint_genotypes.zip jp)
      (List.replicate likelihoods.length (List.replicate num_genotypes 0))
      (by
        intro row hrow x hx
        rw [List.eq_of_mem_replicate hrow] at hx
        rw [List.eq_of_mem_replicate hx])
      (by
        intro tp htp
        exact hjp_nonneg _ (List.of_mem_zip htp).2)
  have hmarg : (calculate_posterior_marginals prior likelihoods joint_genotypes
      num_genotypes).marginal_genotype_probabilities =
      (joint_genotypes.zip jp).foldl (fun m tp => List.zipWith (addAt tp.2) m tp.1)
        (List.replicate likelihoods.length (List.replicate num_genotypes 0)) := rfl
  rw [hmarg]
  refine ⟨hlen, ?_⟩
  intro row hrow
  rcases List.mem_iff_getElem.mp hrow with ⟨i, hi, hrow_eq⟩
  have hi2 : i < likelihoods.length := by rw [hlen] at hi; exact hi
  have hgetD : ((joint_genotypes.zip jp).foldl (fun m tp => List.zipWith (addAt tp.2) m tp.1)
      (List.replicate likelihoods.length (List.replicate num_genotypes 0))).getD i [] = row := by
    rw [List.getD_eq_getElem _ [] hi, hrow_eq]
  refine ⟨?_, ?_, ?_⟩
  · rw [← hgetD]
    exact hrows i hi2
  · intro x hx
    exact hnn row hrow x hx
  · rw [← hgetD]
    rw [hsums i hi2, hzip_snd_map, hjp_sum]
    have : ((List.replicate likelihoods.length
        (List.replicate num_genotypes (0 : ℝ))).getD i []).sum = 0 := by
      rw [List.getD_eq_getElem _ [] (by simpa using hi2), List.getElem_replicate]
      simp
    rw [this]
    ring

theorem headI_mem_of_ne_nil {α : Type} [Inhabited α] (l : List α) (h : l ≠ []) :
    l.headI ∈ l := by
  cases l with
  | nil => exact absurd rfl h
  | cons a as => exact List.mem_cons_self a as

theorem foldl_extension {γ β : Type} (f : List γ → β → List γ)
    (hf : ∀ a b, ∃ e, f a b = a ++ e) (l : List β) :
    ∀ a, ∃ e, l.foldl f a = a ++ e := by
  induction l with
  | nil => exact fun a => ⟨[], by simp⟩
  | cons b bs ih =>
    intro a
    rcases hf a b with ⟨e1, he1⟩
    rcases ih (f a b) with ⟨e2, he2⟩
    exact ⟨e1 ++ e2, by rw [List.foldl_cons, he2, he1, List.append_assoc]⟩

theorem foldl_mem_preserve {γ β : Type} (f : List γ → β → List γ) (Q : γ → Prop) (l : List β)
    (hf : ∀ a b, b ∈ l → (∀ x ∈ a, Q x) → ∀ x ∈ f a b, Q x) :
    ∀ a, (∀ x ∈ a, Q x) → ∀ x ∈ l.foldl f a, Q x := by
  induction l with
  | nil => exact fun a ha => ha
  | cons b bs ih =>
    intro a ha
    rw [List.foldl_cons]
    exact ih (fun a2 b2 hb2 => hf a2 b2 (List.mem_cons_of_mem b hb2))
      (f a b) (hf a b (List.mem_cons_self b bs) ha)

theorem propose_extend_extension (front : List Nat) (num_samples : Nat)
    (top_genotypes : List Nat) (r : List (List Nat)) :
    ∃ e, propose_extend front num_samples top_genotypes r = r ++ e := by
  unfold propose_extend
  apply foldl_extension
  intro a gidx
  apply foldl_extension
  intro a2 sidx
  by_cases h1 : front.getD sidx 0 ≠ gidx
  · rw [if_pos h1]
    by_cases h2 : front.set sidx gidx ∈ a2
    · exact ⟨[], by rw [if_pos h2]; simp⟩
    · exact ⟨[front.set sidx gidx], by rw [if_neg h2]⟩
  · exact ⟨[], by rw [if_neg h1]; simp⟩

theorem propose_extend_shape (num_genotypes : Nat) (front : List Nat) (num_samples : Nat)
    (top_genotypes : List Nat) (r : List (List Nat))
    (hfront : front.length = num_samples ∧ ∀ g ∈ front, g < num_genotypes)
    (htop : ∀ g ∈ top_genotypes, g < num_genotypes)
    (hr : ∀ t ∈ r, t.length = num_samples ∧ ∀ g ∈ t, g < num_genotypes) :
    ∀ t ∈ propose_extend front num_samples top_genotypes r,
      t.length = num_samples ∧ ∀ g ∈ t, g < num_genotypes := by
  unfold propose_extend
  apply foldl_mem_preserve _ _ top_genotypes ?_ r hr
  intro a gidx hgidx ha
  apply foldl_mem_preserve _ _ (List.range num_samples) ?_ a ha
  intro a2 sidx _ ha2
  intro x hx
  by_cases h1 : front.getD sidx 0 ≠ gidx
  · rw [if_pos h1] at hx
    by_cases h2 : front.set sidx gidx ∈ a2
    · rw [if_pos h2] at hx
      exact ha2 x hx
    · rw [if_neg h2] at hx
      rcases List.mem_append.mp hx with h | h
      · exact ha2 x h
      · rw [List.mem_singleton] at h
        subst h
        refine ⟨by rw [List.length_set]; exact hfront.1, ?_⟩
        intro g hg
        rcases List.mem_or_eq_of_mem_set hg with hmem | heq
        · exact hfront.2 g hmem
        · rw [heq]
          exact htop gidx hgidx
  · rw [if_neg h1] at hx
    exact ha2 x hx

/-- The branch structure of propose_joint_genotypes with its let bindings
expanded. -/
theorem propose_joint_genotypes_def (num_genotypes : Nat) (em_marginals : List (List ℝ))
    (max_joint_genotypes : Nat)
    (select_top_k_tuples : List (List ℝ) → Nat → List (List Nat))
    (select_top_k_genotypes : List (List ℝ) → Nat → List Nat)
    (hom_ref_idx : Option Nat) :
    propose_joint_genotypes num_genotypes em_marginals max_joint_genotypes
        select_top_k_tuples select_top_k_genotypes hom_ref_idx =
      if num_genotypes ^ em_marginals.length ≤ max_joint_genotypes then
        all_genotype_tuples num_genotypes em_marginals.length
      else
        match hom_ref_idx with
        | none => propose_extend (select_top_k_tuples em_marginals max_joint_genotypes).headI
            em_marginals.length (select_top_k_genotypes em_marginals (em_marginals.length / 2))
            (select_top_k_tuples em_marginals max_joint_genotypes)
        | some idx =>
          if List.replicate em_marginals.length idx ∈
              propose_extend (select_top_k_tuples em_marginals max_joint_genotypes).headI
                em_marginals.length
                (select_top_k_genotypes em_marginals (em_marginals.length / 2))
                (select_top_k_tuples em_marginals max_joint_genotypes)
          then propose_extend (select_top_k_tuples em_marginals max_joint_genotypes).headI
                em_marginals.length
                (select_top_k_genotypes em_marginals (em_marginals.length / 2))
                (select_top_k_tuples em_marginals max_joint_genotypes)
          else set_back_tuple
                (propose_extend (select_top_k_tuples em_marginals max_joint_genotypes).headI
                  em_marginals.length
                  (select_top_k_genotypes em_marginals (em_marginals.length / 2))
                  (select_top_k_tuples em_marginals max_joint_genotypes))
                (List.replicate em_marginals.length idx) := rfl

/-- The branch structure of propose_joint_genotypes when no homozygous
reference genotype exists. -/
theorem propose_joint_genotypes_none_def (num_genotypes : Nat) (em_marginals : List (List ℝ))
    (max_joint_genotypes : Nat)
    (select_top_k_tuples : List (List ℝ) → Nat → List (List Nat))
    (select_top_k_genotypes : List (List ℝ) → Nat → List Nat) :
    propose_joint_genotypes num_genotypes em_marginals max_joint_genotypes
        select_top_k_tuples select_top_k_genotypes none =
      if num_genotypes ^ em_marginals.length ≤ max_joint_genotypes then
        all_genotype_tuples num_genotypes em_marginals.length
      else propose_extend (select_top_k_tuples em_marginals max_joint_genotypes).headI
        em_marginals.length (select_top_k_genotypes em_marginals (em_marginals.length / 2))
        (select_top_k_tuples em_marginals max_joint_genotypes) := rfl

/-- The branch structure of propose_joint_genotypes when a homozygous
reference genotype was found. -/
theorem propose_joint_genotypes_some_def (num_genotypes : Nat) (em_marginals : List (List ℝ))
    (max_joint_genotypes : Nat)
    (select_top_k_tuples : List (List ℝ) → Nat → List (List Nat))
    (select_top_k_genotypes : List (List ℝ) → Nat → List Nat) (idx : Nat) :
    propose_joint_genotypes num_genotypes em_marginals max_joint_genotypes
        select_top_k_tuples select_top_k_genotypes (some idx) =
      if num_genotypes ^ em_marginals.length ≤ max_joint_genotypes then
        all_genotype_tuples num_genotypes em_marginals.length
      else
        if List.replicate em_marginals.length idx ∈
            propose_extend (select_top_k_tuples em_marginals max_joint_genotypes).headI
              em_marginals.length
              (select_top_k_genotypes em_marginals (em_marginals.length / 2))
              (select_top_k_tuples em_marginals max_joint_genotypes)
        then propose_extend (select_top_k_tuples em_marginals max_joint_genotypes).headI
              em_marginals.length
              (select_top_k_genotypes em_marginals (em_marginals.length / 2))
              (select_top_k_tuples em_marginals max_joint_genotypes)
        else set_back_tuple
              (propose_extend (select_top_k_tuples em_marginals max_joint_genotypes).headI
                em_marginals.length
                (select_top_k_genotypes em_marginals (em_marginals.length / 2))
                (select_top_k_tuples em_marginals max_joint_genotypes))
              (List.replicate em_marginals.length idx) := rfl

theorem propose_joint_genotypes_shape (num_genotypes : Nat) (em_marginals : List (List ℝ))
    (max_joint_genotypes : Nat)
    (select_top_k_tuples : List (List ℝ) → Nat → List (List Nat))
    (select_top_k_genotypes : List (List ℝ) → Nat → List Nat)
    (hom_ref_idx : Option Nat)
    (hGn : 0 < num_genotypes)
    (hne : select_top_k_tuples em_marginals max_joint_genotypes ≠ [])
    (hshape : ∀ t ∈ select_top_k_tuples em_marginals max_joint_genotypes,
        t.length = em_marginals.length ∧ ∀ g ∈ t, g < num_genotypes)
    (hstg : ∀ g ∈ select_top_k_genotypes em_marginals (em_marginals.length / 2),
        g < num_genotypes)
    (hhom : ∀ i, hom_ref_idx = some i → i < num_genotypes) :
    propose_joint_genotypes num_genotypes em_marginals max_joint_genotypes
        select_top_k_tuples select_top_k_genotypes hom_ref_idx ≠ [] ∧
    ∀ t ∈ propose_joint_genotypes num_genotypes em_marginals max_joint_genotypes
        select_top_k_tuples select_top_k_genotypes hom_ref_idx,
      t.length = em_marginals.length ∧ ∀ g ∈ t, g < num_genotypes := by
  have hall : all_genotype_tuples num_genotypes em_marginals.length ≠ [] ∧
      ∀ t ∈ all_genotype_tuples num_genotypes em_marginals.length,
        t.length = em_marginals.length ∧ ∀ g ∈ t, g < num_genotypes := by
    constructor
    · intro hnil
      have hmem := mem_all_genotype_tuples num_genotypes em_marginals.length
        (List.replicate em_marginals.length 0) (List.length_replicate ..)
        (fun g hg => by rw [List.eq_of_mem_replicate hg]; exact hGn)
      rw [hnil] at hmem
      simp at hmem
    · exact all_genotype_tuples_shape num_genotypes em_marginals.length
  have hfront := hshape _ (headI_mem_of_ne_nil _ hne)
  have hr1shape := propose_extend_shape num_genotypes
    (select_top_k_tuples em_marginals max_joint_genotypes).headI em_marginals.length
    (select_top_k_genotypes em_marginals (em_marginals.length / 2))
    (select_top_k_tuples em_marginals max_joint_genotypes) hfront hstg hshape
  have hr1ne : propose_extend (select_top_k_tuples em_marginals max_joint_genotypes).headI
      em_marginals.length (select_top_k_genotypes em_marginals (em_marginals.length / 2))
      (select_top_k_tuples em_marginals max_joint_genotypes) ≠ [] := by
    rcases propose_extend_extension (select_top_k_tuples em_marginals max_joint_genotypes).headI
      em_marginals.length (select_top_k_genotypes em_marginals (em_marginals.length / 2))
      (select_top_k_tuples em_marginals max_joint_genotypes) with ⟨e, he⟩
    rw [he]
    intro hnil
    exact hne (List.append_eq_nil.mp hnil).1
  cases hom_ref_idx with
  | none =>
    rw [propose_joint_genotypes_none_def]
    by_cases hc : num_genotypes ^ em_marginals.length ≤ max_joint_genotypes
    · rw [if_pos hc]
      exact hall
    · rw [if_neg hc]
      exact ⟨hr1ne, hr1shape⟩
  | some idx =>
    rw [propose_joint_genotypes_some_def]
    by_cases hc : num_genotypes ^ em_marginals.length ≤ max_joint_genotypes
    · rw [if_pos hc]
      exact hall
    · rw [if_neg hc]
      by_cases hmem : List.replicate em_marginals.length idx ∈
          propose_extend (select_top_k_tuples em_marginals max_joint_genotypes).headI
            em_marginals.length (select_top_k_genotypes em_marginals (em_marginals.length / 2))
            (select_top_k_tuples em_marginals max_joint_genotypes)
      · rw [if_pos hmem]
        exact ⟨hr1ne, hr1shape⟩
      · rw [if_neg hmem]
        unfold set_back_tuple
        constructor
        · simp
        · intro t ht
          rcases List.mem_append.mp ht with h | h
          · exact hr1shape t ((List.dropLast_sublist _).subset h)
          · rw [List.mem_singleton] at h
            subst h
            refine ⟨List.length_replicate .., ?_⟩
            intro g hg
            rw [List.eq_of_mem_replicate hg]
            exact hhom idx rfl

/-- C1: every call to PopulationModel::evaluate — the exact enumeration
path and the EM/top-k approximate path alike — returns per-sample marginal
genotype probability vectors that are normalised: each sample's vector
ranges over the candidate genotypes with non-negative entries summing to 1
(exactly, in the idealised real arithmetic).  The selection oracles are
constrained only by the shapes the source guarantees: select_top_k_tuples
returns at least one tuple of one genotype index per sample. -/
theorem population_evaluate_marginals_normalised {G : Type} (prior : List Nat → ℝ)
    (genotypes : List G) (is_hom_ref : G → Bool) (likelihoods : List (List ℝ))
    (max_joint_genotypes : Nat) (em_marginals : List (List ℝ))
    (select_top_k_tuples : List (List ℝ) → Nat → List (List Nat))
    (select_top_k_genotypes : List (List ℝ) → Nat → List Nat)
    (hg : genotypes ≠ [])
    (hem : em_marginals.length = likelihoods.length)
    (hne : select_top_k_tuples em_marginals max_joint_genotypes ≠ [])
    (hshape : ∀ t ∈ select_top_k_tuples em_marginals max_joint_genotypes,
        t.length = em_marginals.length ∧ ∀ g ∈ t, g < genotypes.length)
    (hstg : ∀ g ∈ select_top_k_genotypes em_marginals (em_marginals.length / 2),
        g < genotypes.length) :
    (PopulationModel.evaluate prior genotypes is_hom_ref likelihoods max_joint_genotypes
        em_marginals select_top_k_tuples
        select_top_k_genotypes).marginal_genotype_probabilities.length =
      likelihoods.length ∧
    ∀ row ∈ (PopulationModel.evaluate prior genotypes is_hom_ref likelihoods
        max_joint_genotypes em_marginals select_top_k_tuples
        select_top_k_genotypes).marginal_genotype_probabilities,
      row.length = genotypes.length ∧ (∀ x ∈ row, 0 ≤ x) ∧ row.sum = 1 := by
  have hGn : 0 < genotypes.length := List.length_pos.mpr hg
  unfold PopulationModel.evaluate
  by_cases hc : genotypes.length ^ likelihoods.length ≤ max_joint_genotypes
  · rw [if_pos hc]
    apply calculate_posterior_marginals_spec
    · intro hnil
      have hmem := mem_all_genotype_tuples genotypes.length likelihoods.length
        (List.replicate likelihoods.length 0) (List.length_replicate ..)
        (fun g hg2 => by rw [List.eq_of_mem_replicate hg2]; exact hGn)
      rw [hnil] at hmem
      simp at hmem
    · exact all_genotype_tuples_shape genotypes.length likelihoods.length
  · rw [if_neg hc]
    rcases propose_joint_genotypes_shape genotypes.length em_marginals max_joint_genotypes
      select_top_k_tuples select_top_k_genotypes (find_hom_ref_idx genotypes is_hom_ref)
      hGn hne hshape hstg
      (fun i hi => (List.findIdx?_eq_some_iff_findIdx_eq.mp hi).1) with ⟨hpne, hpshape⟩
    apply calculate_posterior_marginals_spec _ _ _ _ hpne
    intro t ht
    rcases hpshape t ht with ⟨h1, h2⟩
    exact ⟨by rw [h1, hem], h2⟩

/-- C1 witness: one sample, one genotype, with trivial oracles; the exact
path applies and the single marginal vector is the point distribution. -/
theorem population_evaluate_marginals_normalised_witness :
    (PopulationModel.evaluate (fun _ => (0 : ℝ)) [()] (fun _ => true) [[(0 : ℝ)]] 1
        [[(0 : ℝ)]] (fun _ _ => [[0]])
        (fun _ _ => [])).marginal_genotype_probabilities.length =
      ([[(0 : ℝ)]] : List (List ℝ)).length ∧
    ∀ row ∈ (PopulationModel.evaluate (fun _ => (0 : ℝ)) [()] (fun _ => true) [[(0 : ℝ)]] 1
        [[(0 : ℝ)]] (fun _ _ => [[0]])
        (fun _ _ => [])).marginal_genotype_probabilities,
      row.length = ([()] : List Unit).length ∧ (∀ x ∈ row, 0 ≤ x) ∧ row.sum = 1 :=
  population_evaluate_marginals_normalised (fun _ => (0 : ℝ)) [()] (fun _ => true)
    [[(0 : ℝ)]] 1 [[(0 : ℝ)]] (fun _ _ => [[0]]) (fun _ _ => [])
    (by simp) rfl (by simp)
    (by
      intro t ht
      simp only [List.mem_singleton] at ht
      subst ht
      refine ⟨rfl, ?_⟩
      intro g hg
      simp only [List.mem_singleton] at hg
      subst hg
      decide)
    (by intro g hg; simp at hg)

/-- C6: in the population model's approximate path, whenever the candidate
genotype list contains a homozygous-reference genotype (found by the linear
scan of find_hom_ref_idx), the joint genotypes proposed by
propose_joint_genotypes contain the tuple assigning that genotype to every
sample: the exhaustive branch enumerates it, and the top-k branch either
already contains it or writes it over the last entry. -/
theorem propose_joint_genotypes_contains_hom_ref {G : Type} (genotypes : List G)
    (is_hom_ref : G → Bool) (em_marginals : List (List ℝ)) (max_joint_genotypes : Nat)
    (select_top_k_tuples : List (List ℝ) → Nat → List (List Nat))
    (select_top_k_genotypes : List (List ℝ) → Nat → List Nat) (idx : Nat)
    (hfind : find_hom_ref_idx genotypes is_hom_ref = some idx)
    (hne : select_top_k_tuples em_marginals max_joint_genotypes ≠ []) :
    List.replicate em_marginals.length idx ∈
      propose_joint_genotypes genotypes.length em_marginals max_joint_genotypes
        select_top_k_tuples select_top_k_genotypes
        (find_hom_ref_idx genotypes is_hom_ref) := by
  have hidx : idx < genotypes.length :=
    (List.findIdx?_eq_some_iff_findIdx_eq.mp hfind).1
  rw [hfind, propose_joint_genotypes_some_def]
  by_cases hc : genotypes.length ^ em_marginals.length ≤ max_joint_genotypes
  · rw [if_pos hc]
    exact mem_all_genotype_tuples genotypes.length em_marginals.length
      (List.replicate em_marginals.length idx) (List.length_replicate ..)
      (fun g hg => by rw [List.eq_of_mem_replicate hg]; exact hidx)
  · rw [if_neg hc]
    by_cases hmem : List.replicate em_marginals.length idx ∈
        propose_extend (select_top_k_tuples em_marginals max_joint_genotypes).headI
          em_marginals.length (select_top_k_genotypes em_marginals (em_marginals.length / 2))
          (select_top_k_tuples em_marginals max_joint_genotypes)
    · rw [if_pos hmem]
      exact hmem
    · rw [if_neg hmem]
      unfold set_back_tuple
      exact List.mem_append_right _ (List.mem_singleton.mpr rfl)

/-- C6 witness: a single hom-ref candidate genotype and no samples; the
exhaustive branch applies and contains the empty constant tuple. -/
theorem propose_joint_genotypes_contains_hom_ref_witness :
    List.replicate ([] : List (List ℝ)).length 0 ∈
      propose_joint_genotypes ([true] : List Bool).length ([] : List (List ℝ)) 10
        (fun _ _ => [[0]]) (fun _ _ => [])
        (find_hom_ref_idx [true] (fun b => b)) :=
  propose_joint_genotypes_contains_hom_ref [true] (fun b => b) [] 10
    (fun _ _ => [[0]]) (fun _ _ => []) 0 rfl (by simp)

/- ====================================================================
   C3: the EM M-step update_haplotype_frequencies and the two
   make_inverse_genotype_table constructions
   (core/models/genotype/population_model.cpp lines 56-99, 223-257)
   ==================================================================== -/

/-- make_inverse_genotype_table (population_model.cpp lines 56-78): keyed
by haplotype, the indices of the genotypes containing it, one entry per
copy — a genotype iterates over its haplotypes and appends its index for
every occurrence.  Haplotypes are identified by naturals; a genotype is the
list of its haplotype identifiers (ploidy = length). -/
def make_inverse_genotype_table (haplotypes : List Nat) (genotypes : List (List Nat)) :
    List (List Nat) :=
  haplotypes.map (fun h =>
    (List.range genotypes.length).flatMap
      (fun i => List.replicate ((genotypes.getD i []).count h) i))

/-- The GenotypeIndex overload of make_inverse_genotype_table
(population_model.cpp lines 80-94): for each haplotype index, the genotype
indices whose index vector contains it — each at most once, because the
result[idx].back() != genotype_idx test drops every copy after the first
pushed by the same genotype (genotypes are visited in ascending index
order, so back() equals the current genotype index exactly when that
genotype already pushed it). -/
def make_inverse_genotype_table_indices (genotype_indices : List (List Nat))
    (num_haplotypes : Nat) : List (List Nat) :=
  (List.range num_haplotypes).map (fun idx =>
    (List.range genotype_indices.length).filter
      (fun i => (genotype_indices.getD i []).contains idx))

/-- calculate_frequency_update_norm (population_model.cpp lines 96-99). -/
noncomputable def calculate_frequency_update_norm (num_samples ploidy : Nat) : ℝ :=
  (num_samples : ℝ) * ploidy

/-- collapse_genotype_posteriors (population_model.cpp lines 223-232):
elementwise sum of the per-sample genotype posterior vectors. -/
def collapse_genotype_posteriors (genotype_posteriors : List (List ℝ)) : List ℝ :=
  genotype_posteriors.foldl
    (fun result sample => List.zipWith (fun c p => c + p) result sample)
    (List.replicate genotype_posteriors.headI.length 0)

/-- update_haplotype_frequencies (population_model.cpp lines 234-257): the
EM M-step.  For each haplotype, the new Hardy-Weinberg frequency is the sum
of the collapsed posteriors of the genotypes listed in its inverse-table
entry, divided by num_samples * ploidy.  The returned list is the updated
frequency map in haplotype order (the max-change return value plays no part
in the claim). -/
noncomputable def update_haplotype_frequencies (genotype_posteriors : List (List ℝ))
    (genotypes_containing_haplotypes : List (List Nat))
    (frequency_update_norm : ℝ) : List ℝ :=
  genotypes_containing_haplotypes.map (fun entry =>
    (entry.map (fun j => (collapse_genotype_posteriors genotype_posteriors).getD j 0)).sum /
      frequency_update_norm)

/-- C3 (code-bug evidence): with haplotypes 0, 1, diploid candidate
genotypes 0/0, 0/1, 1/1 and one sample holding the uniform genotype
posterior (1/3, 1/3, 1/3), the M-step frequencies built from the
haplotype-reference inverse table sum to 1, but those built from the
genotype-index inverse table sum to 2/3: the index-based construction
counts each homozygous genotype once instead of ploidy times, so the claim
fails for it while the spec and the parallel construction require sum 1. -/
theorem inverse_genotype_table_constructions_disagree :
    (update_haplotype_frequencies [[(1 : ℝ)/3, 1/3, 1/3]]
        (make_inverse_genotype_table [0, 1] [[0, 0], [0, 1], [1, 1]])
        (calculate_frequency_update_norm 1 2)).sum = 1 ∧
    (update_haplotype_frequencies [[(1 : ℝ)/3, 1/3, 1/3]]
        (make_inverse_genotype_table_indices [[0, 0], [0, 1], [1, 1]] 2)
        (calculate_frequency_update_norm 1 2)).sum = 2/3 := by
  have htab1 : make_inverse_genotype_table [0, 1] [[0, 0], [0, 1], [1, 1]] =
      [[0, 0, 1], [1, 2, 2]] := by decide
  have htab2 : make_inverse_genotype_table_indices [[0, 0], [0, 1], [1, 1]] 2 =
      [[0, 1], [1, 2]] := by decide
  have hcol : collapse_genotype_posteriors [[(1 : ℝ)/3, 1/3, 1/3]] =
      [1/3, 1/3, 1/3] := by
    unfold collapse_genotype_posteriors
    norm_num [List.zipWith]
  rw [htab1, htab2]
  unfold update_haplotype_frequencies calculate_frequency_update_norm
  rw [hcol]
  norm_num

/- ====================================================================
   C4: SingleCellModel::evaluate with a one-group phylogeny
   (core/models/genotype/single_cell_model.cpp lines 30-48)
   ==================================================================== -/

/-- SubcloneModelBase::InferredLatents as consumed by the cell model:
genotype posteriors and approximate log evidence (subclone_model.hpp lines
57-62). -/
structure SubcloneLatents where
  genotype_probabilities : List ℝ
  approx_log_evidence : ℝ

/-- SingleCellModel::Inferences::GroupInferences (single_cell_model.hpp). -/
structure GroupInferences where
  genotype_posteriors : List ℝ
  sample_attachment_posteriors : List ℝ

/-- SingleCellModel::Inferences restricted to what the one-group branch
fills: the founder group and the log evidence. -/
structure CellInferences where
  founder : GroupInferences
  log_evidence : ℝ

/-- SingleCellModel::evaluate (single_cell_model.cpp lines 30-77).  For a
one-group phylogeny it builds SubcloneModel priors with, per sample, a
Dirichlet concentration vector of ploidy copies of the dropout
concentration, runs the subclone model (abstracted as a function of that
alpha map; samples, genotypes and likelihoods are fixed), copies its
genotype posteriors into the founder group, sets every sample attachment
posterior to 1.0 and forwards the approximate log evidence.  The multi-group
branch is abstracted as its result. -/
def SingleCellModel.evaluate {S H : Type} (phylogeny_size : Nat) (samples : List S)
    (genotypes : List (List H)) (dropout_concentration : ℝ)
    (subclone_evaluate : (S → List ℝ) → SubcloneLatents)
    (multi_group_inferences : CellInferences) : CellInferences :=
  if phylogeny_size = 1 then
    { founder :=
        { genotype_posteriors :=
            (subclone_evaluate
              (fun _ => List.replicate genotypes.headI.length dropout_concentration)).genotype_probabilities
        , sample_attachment_posteriors := List.replicate samples.length 1 }
    , log_evidence :=
        (subclone_evaluate
          (fun _ => List.replicate genotypes.headI.length dropout_concentration)).approx_log_evidence }
  else multi_group_inferences

/-- The one-group behaviour the spec prescribes, written from the spec's
words: the inferences are exactly those of the subclone model run with
per-sample Dirichlet concentrations equal to the dropout concentration,
with every sample attached to the founder with posterior 1.0. -/
def single_cell_degenerate_spec {S : Type} (samples : List S) (ploidy : Nat)
    (dropout_concentration : ℝ)
    (subclone_evaluate : (S → List ℝ) → SubcloneLatents) : CellInferences :=
  { founder :=
      { genotype_posteriors :=
          (subclone_evaluate
            (fun _ => List.replicate ploidy dropout_concentration)).genotype_probabilities
      , sample_attachment_posteriors := List.replicate samples.length 1 }
  , log_evidence :=
      (subclone_evaluate
        (fun _ => List.replicate ploidy dropout_concentration)).approx_log_evidence }

/-- C4: with a one-group prior phylogeny, SingleCellModel::evaluate returns
founder genotype posteriors equal to those of SubcloneModel::evaluate run
with per-sample Dirichlet concentrations equal to the dropout
concentration, per-sample attachment posteriors all exactly 1.0, and the
subclone model's approximate log evidence — i.e. it coincides with the
spec's degenerate subclone behaviour. -/
theorem single_cell_one_group_degenerates {S H : Type} (phylogeny_size : Nat)
    (samples : List S) (genotypes : List (List H)) (dropout_concentration : ℝ)
    (subclone_evaluate : (S → List ℝ) → SubcloneLatents)
    (multi_group_inferences : CellInferences)
    (h1 : phylogeny_size = 1) :
    SingleCellModel.evaluate phylogeny_size samples genotypes dropout_concentration
        subclone_evaluate multi_group_inferences =
      single_cell_degenerate_spec samples genotypes.headI.length dropout_concentration
        subclone_evaluate := by
  subst h1
  unfold SingleCellModel.evaluate single_cell_degenerate_spec
  rw [if_pos rfl]

/-- C4 witness: the theorem instantiated at a one-group phylogeny with one
sample and one haploid genotype. -/
theorem single_cell_one_group_degenerates_witness :
    SingleCellModel.evaluate 1 [()] [[()]] 0
        (fun _ => SubcloneLatents.mk [1] 0) (CellInferences.mk (GroupInferences.mk [] []) 0) =
      single_cell_degenerate_spec [()] ([[()]] : List (List Unit)).headI.length 0
        (fun _ => SubcloneLatents.mk [1] 0) :=
  single_cell_one_group_degenerates 1 [()] [[()]] 0
    (fun _ => SubcloneLatents.mk [1] 0) (CellInferences.mk (GroupInferences.mk [] []) 0) rfl

end OctopusProof
